import Mathlib

/-!
# Verification of the spam email detector's core text pipeline

Shallow embedding of the repository's pure core: content extraction from a
MIME-like part tree (`gmail_utils.extract_email_content`, `clean_html`),
text normalization (`text_utils.clean_text_for_model`, `extract_links`,
`transform_text`), the validation layer (`validation_utils`), and the
classification wrapper (`model_utils.predict_spam`).

Python strings are modelled as Lean `String`/`List Char`; regular-expression
substitutions are modelled by explicit left-to-right scanners that mirror
CPython's leftmost, non-overlapping `re.sub`/`re.findall` semantics for the
concrete patterns appearing in the source (none of which needs backtracking:
each quantified class is followed by a character outside the class, so the
greedy maximal run is the only viable length).  Whitespace and case mappings
are modelled at the ASCII level, which covers every string manipulated here.
-/

namespace SpamDetector

/-- Models Python's whitespace test (`\s`, `str.strip`, `str.isspace`)
restricted to ASCII: space, tab, newline, carriage return, vertical tab,
form feed. -/
def pyIsSpace (c : Char) : Bool :=
  c = ' ' || c = '\t' || c = '\n' || c = '\r' || c = '\x0b' || c = '\x0c'

/-- Models Python's `str.lower` on a single ASCII character. -/
def pyLowerChar (c : Char) : Char :=
  if 'A' ≤ c ∧ c ≤ 'Z' then Char.ofNat (c.toNat + 32) else c

/-- Models Python's `str.lower`. -/
def pyLower (s : String) : String := String.mk (s.data.map pyLowerChar)

/-- Models Python's `str.startswith`. -/
def pyStartswith (s : String) (pre : String) : Bool :=
  pre.data.isPrefixOf s.data

/-- Strip trailing characters satisfying `pyIsSpace`. -/
def dropTrailingWs (l : List Char) : List Char :=
  (l.reverse.dropWhile pyIsSpace).reverse

/-- Models Python's `str.strip()` (no arguments) on the character list. -/
def pyStrip (l : List Char) : List Char :=
  dropTrailingWs (l.dropWhile pyIsSpace)

/-- Models Python's `str.strip()` on strings. -/
def pyStripStr (s : String) : String := String.mk (pyStrip s.data)

/-! ## base64url decoding (`base64.urlsafe_b64decode`)

`urlsafe_b64decode` translates `-`→`+`, `_`→`/` and then calls `b64decode`
with `validate=False`, which discards characters outside the alphabet and
raises `binascii.Error` on bad padding.  We model the decoder on inputs
whose `=` characters (if any) are trailing padding; other inputs are mapped
to `none` (= the raised error, which every caller in the source turns into
an empty string). -/

/-- Value of a base64 digit, accepting both the standard and the urlsafe
alphabet (as `urlsafe_b64decode` does after translation). -/
def b64DigitVal (c : Char) : Option Nat :=
  if 'A' ≤ c ∧ c ≤ 'Z' then some (c.toNat - 65)
  else if 'a' ≤ c ∧ c ≤ 'z' then some (c.toNat - 97 + 26)
  else if '0' ≤ c ∧ c ≤ '9' then some (c.toNat - 48 + 52)
  else if c = '+' ∨ c = '-' then some 62
  else if c = '/' ∨ c = '_' then some 63
  else none

/-- Convert a list of 6-bit values (padding already removed) to bytes. -/
def b64Quads : List Nat → List Nat
  | a :: b :: c :: d :: rest =>
      (a * 4 + b / 16) :: ((b % 16) * 16 + c / 4) :: ((c % 4) * 64 + d) :: b64Quads rest
  | [a, b, c] => [a * 4 + b / 16, (b % 16) * 16 + c / 4]
  | [a, b] => [a * 4 + b / 16]
  | _ => []

/-- Models `base64.urlsafe_b64decode(s)` returning the decoded bytes, or
`none` when CPython raises `binascii.Error` (invalid padding). -/
def pyUrlsafeB64Decode (s : String) : Option (List Nat) :=
  let cs := s.data.filter (fun c => (b64DigitVal c).isSome || c = '=')
  let ds := cs.takeWhile (fun c => c ≠ '=')
  let ps := cs.drop ds.length
  if (ps.all (fun c => c = '=')) ∧ ps.length ≤ 2 ∧ cs.length % 4 = 0 then
    some (b64Quads (ds.filterMap b64DigitVal))
  else none

/-! ## UTF-8 decoding with `errors="replace"`

Models `bytes.decode("utf-8", errors="replace")`: valid sequences decode to
their code point, malformed bytes become U+FFFD (the modelling of *how many*
replacement characters a malformed run yields is approximate; every byte
string decoded in this development is valid ASCII). -/

/-- The U+FFFD replacement character. -/
def replChar : Char := Char.ofNat 0xFFFD

/-- Is `b` a UTF-8 continuation byte? -/
def utf8Cont (b : Nat) : Bool := 128 ≤ b && b ≤ 191

/-- Decode a byte list as UTF-8, substituting U+FFFD for malformed data.
The `fuel` parameter only serves structural termination; it is always called
with `fuel = length` of the list, which dominates the number of steps. -/
def utf8F : Nat → List Nat → List Char
  | 0, _ => []
  | _, [] => []
  | fuel + 1, b1 :: rest =>
    if b1 < 128 then Char.ofNat b1 :: utf8F fuel rest
    else if 194 ≤ b1 ∧ b1 ≤ 223 then
      match rest with
      | b2 :: rest2 =>
        if utf8Cont b2 then
          Char.ofNat ((b1 - 192) * 64 + (b2 - 128)) :: utf8F fuel rest2
        else replChar :: utf8F fuel rest
      | [] => [replChar]
    else if 224 ≤ b1 ∧ b1 ≤ 239 then
      match rest with
      | b2 :: b3 :: rest3 =>
        if (if b1 = 224 then 160 ≤ b2 ∧ b2 ≤ 191
            else if b1 = 237 then 128 ≤ b2 ∧ b2 ≤ 159
            else utf8Cont b2 = true) ∧ utf8Cont b3 = true then
          Char.ofNat ((b1 - 224) * 4096 + (b2 - 128) * 64 + (b3 - 128)) ::
            utf8F fuel rest3
        else replChar :: utf8F fuel rest
      | _ => [replChar]
    else if 240 ≤ b1 ∧ b1 ≤ 244 then
      match rest with
      | b2 :: b3 :: b4 :: rest4 =>
        if (if b1 = 240 then 144 ≤ b2 ∧ b2 ≤ 191
            else if b1 = 244 then 128 ≤ b2 ∧ b2 ≤ 143
            else utf8Cont b2 = true) ∧ utf8Cont b3 = true ∧ utf8Cont b4 = true then
          Char.ofNat ((b1 - 240) * 262144 + (b2 - 128) * 4096 + (b3 - 128) * 64 + (b4 - 128)) ::
            utf8F fuel rest4
        else replChar :: utf8F fuel rest
      | _ => [replChar]
    else replChar :: utf8F fuel rest

/-- Decode a byte list as UTF-8 with replacement of malformed data
(`bytes.decode("utf-8", errors="replace")`). -/
def utf8DecodeReplace (l : List Nat) : List Char := utf8F l.length l

/-- Models `base64.urlsafe_b64decode(d).decode("utf-8", errors="replace")`
with the enclosing `try/except` that maps a decoding error to `""`
(`gmail_utils.decode_part`). -/
def decodeB64ToStr (d : String) : String :=
  match pyUrlsafeB64Decode d with
  | some bytes => String.mk (utf8DecodeReplace bytes)
  | none => ""

/-! ## Regular-expression scanners

Each `re.sub(pattern, " ", text)` in the source is modelled by
`subPatF matchLen 0 text.data` where `matchLen cs` returns the length of the
(unique, greedy) match of `pattern` at the start of `cs`, or `none`.
`subPatF` walks the characters left to right; at each position with no
pending skip it tries the matcher, emits a single `' '` for a match and
skips the matched characters, exactly as `re.sub` with a one-space
replacement does.  `re.findall` is modelled by the analogous `findUrlsF`. -/

/-- Length of the maximal run of non-whitespace characters (`\S+`, greedy). -/
def nonWsLen : List Char → Nat
  | [] => 0
  | c :: rest => if pyIsSpace c then 0 else 1 + nonWsLen rest

/-- Length of the maximal run of whitespace characters (`\s+`, greedy). -/
def wsSpanLen : List Char → Nat
  | [] => 0
  | c :: rest => if pyIsSpace c then 1 + wsSpanLen rest else 0

/-- Length of the maximal run of non-semicolon characters (`[^;]+`). -/
def nonSemiLen : List Char → Nat
  | [] => 0
  | c :: rest => if c = ';' then 0 else 1 + nonSemiLen rest

/-- Is `c` in the class `[A-Za-z0-9+/=]`? -/
def b64ClassChar (c : Char) : Bool :=
  ('A' ≤ c && c ≤ 'Z') || ('a' ≤ c && c ≤ 'z') || ('0' ≤ c && c ≤ '9') ||
    c = '+' || c = '/' || c = '='

/-- Length of the maximal run of `[A-Za-z0-9+/=]` characters. -/
def b64ClassLen : List Char → Nat
  | [] => 0
  | c :: rest => if b64ClassChar c then 1 + b64ClassLen rest else 0

/-- Is `c` in the class `[^\s'\"<>]` used by the `cid:` pattern? -/
def cidClassChar (c : Char) : Bool :=
  !(pyIsSpace c) && c ≠ '\'' && c ≠ '"' && c ≠ '<' && c ≠ '>'

/-- Length of the maximal run of `[^\s'\"<>]` characters. -/
def cidClassLen : List Char → Nat
  | [] => 0
  | c :: rest => if cidClassChar c then 1 + cidClassLen rest else 0

/-- Match length of `http[s]?://\S+` at the start of `cs`
(the pattern of both `extract_links` and the first `clean_text_for_model`
substitution). -/
def matchUrlLen (cs : List Char) : Option Nat :=
  let k := if "https://".data.isPrefixOf cs then some 8
           else if "http://".data.isPrefixOf cs then some 7
           else none
  match k with
  | some k => let m := nonWsLen (cs.drop k); if m = 0 then none else some (k + m)
  | none => none

/-- Match length of `www\.\S+` at the start of `cs`. -/
def matchWwwLen (cs : List Char) : Option Nat :=
  if "www.".data.isPrefixOf cs then
    let m := nonWsLen (cs.drop 4); if m = 0 then none else some (4 + m)
  else none

/-- Match length of `data:image\/[^;]+;base64,[A-Za-z0-9+/=]+` at the start
of `cs`. -/
def matchDataUriLen (cs : List Char) : Option Nat :=
  if "data:image/".data.isPrefixOf cs then
    let m := nonSemiLen (cs.drop 11)
    if m = 0 then none
    else
      let afterSemi := cs.drop (11 + m + 1)
      if (cs.drop (11 + m)).take 1 = [';'] ∧ "base64,".data.isPrefixOf afterSemi then
        let b := b64ClassLen (afterSemi.drop 7)
        if b = 0 then none else some (11 + m + 1 + 7 + b)
      else none
  else none

/-- Match length of `cid:[^\s'\"<>]+` (case-insensitive) at the start of
`cs`. -/
def matchCidLen (cs : List Char) : Option Nat :=
  if "cid:".data.isPrefixOf (cs.map pyLowerChar) then
    let m := cidClassLen (cs.drop 4); if m = 0 then none else some (4 + m)
  else none

/-- Index (0-based) of the first `'>'` in the list, if any. -/
def gtIdx : List Char → Option Nat
  | [] => none
  | c :: rest =>
    if c = '>' then some 0
    else match gtIdx rest with
         | some i => some (i + 1)
         | none => none

/-- Match length of `<[^>]*>` at the start of `cs`
(the tag pattern of `clean_text_for_model`). -/
def matchTagStarLen (cs : List Char) : Option Nat :=
  match cs with
  | c :: rest =>
    if c = '<' then
      match gtIdx rest with
      | some i => some (i + 2)
      | none => none
    else none
  | [] => none

/-- Match length of `<[^>]+>` at the start of `cs`
(the tag pattern of `clean_html`, which needs at least one character
between the brackets). -/
def matchTagPlusLen (cs : List Char) : Option Nat :=
  match cs with
  | c :: rest =>
    if c = '<' then
      match gtIdx rest with
      | some i => if i = 0 then none else some (i + 2)
      | none => none
    else none
  | [] => none

/-- Match length of `\s+` at the start of `cs`. -/
def matchWsLen (cs : List Char) : Option Nat :=
  let m := wsSpanLen cs; if m = 0 then none else some m

/-- Left-to-right scanner modelling `re.sub(pattern, " ", ...)`.
`skip > 0` means `skip` characters of a previously found match remain to be
consumed.  At `skip = 0` the matcher is tried at the current position: a
match of length `n` emits a single space and skips its `n` characters
(non-overlapping continuation, as in `re.sub`); otherwise the character is
copied and scanning moves one position right. -/
def subPatF (matchLen : List Char → Option Nat) : Nat → List Char → List Char
  | _, [] => []
  | skip + 1, _ :: rest => subPatF matchLen skip rest
  | 0, c :: rest =>
    match matchLen (c :: rest) with
    | some n => ' ' :: subPatF matchLen (n - 1) rest
    | none => c :: subPatF matchLen 0 rest

/-- Left-to-right scanner modelling `re.findall(r"http[s]?://\S+", ...)`:
collects every (non-overlapping, leftmost) match in order. -/
def findUrlsF : Nat → List Char → List (List Char)
  | _, [] => []
  | skip + 1, _ :: rest => findUrlsF skip rest
  | 0, c :: rest =>
    match matchUrlLen (c :: rest) with
    | some n => (c :: rest).take n :: findUrlsF (n - 1) rest
    | none => findUrlsF 0 rest

/-! ## `text_utils` / `gmail_utils` text transforms -/

/-- Models the stdlib `html.unescape` restricted to the basic named
entities `&lt;` `&gt;` `&amp;` `&quot;` (single left-to-right pass, as
CPython's entity substitution does).  Every string unescaped in this
development only involves these entities (or none). -/
def unescapeHtmlChars : List Char → List Char
  | [] => []
  | '&' :: 'l' :: 't' :: ';' :: rs => '<' :: unescapeHtmlChars rs
  | '&' :: 'g' :: 't' :: ';' :: rs => '>' :: unescapeHtmlChars rs
  | '&' :: 'a' :: 'm' :: 'p' :: ';' :: rs => '&' :: unescapeHtmlChars rs
  | '&' :: 'q' :: 'u' :: 'o' :: 't' :: ';' :: rs => '"' :: unescapeHtmlChars rs
  | c :: rest => c :: unescapeHtmlChars rest

/-- `clean_html` (identical in `gmail_utils.py` and `text_utils.py`):
`re.sub(r"<[^>]+>", " ", html_content)` followed by `html.unescape`. -/
def clean_html (html_content : String) : String :=
  String.mk (unescapeHtmlChars (subPatF matchTagPlusLen 0 html_content.data))

/-- `text_utils.clean_text_for_display`: collapse whitespace runs to one
space and strip the ends; identity on the empty string. -/
def clean_text_for_display (text : String) : String :=
  if text = "" then text
  else String.mk (pyStrip (subPatF matchWsLen 0 text.data))

/-- `text_utils.clean_text_for_model`: remove http(s) URLs, `www.` URLs,
base64 `data:image` URIs, `cid:` references and HTML tags (each replaced by
a space), then collapse whitespace and strip; identity on the empty
string. -/
def clean_text_for_model (text : String) : String :=
  if text = "" then text
  else
    let t1 := subPatF matchUrlLen 0 text.data
    let t2 := subPatF matchWwwLen 0 t1
    let t3 := subPatF matchDataUriLen 0 t2
    let t4 := subPatF matchCidLen 0 t3
    let t5 := subPatF matchTagStarLen 0 t4
    String.mk (pyStrip (subPatF matchWsLen 0 t5))

/-- `text_utils.extract_links`: `re.findall(r"http[s]?://\S+", text)`, with
the empty string short-circuited to `[]`. -/
def extract_links (text : String) : List String :=
  if text = "" then []
  else (findUrlsF 0 text.data).map String.mk

/-! ## Validation layer (`validation_utils.py`) -/

/-- `validation_utils.validate_text_input` (the `isinstance(text, str)`
check is discharged by typing).  The branch order is the source's: the
minimum-length check on the stripped text comes first, then the raw
maximum-length check, then the empty/whitespace-only check. -/
def validate_text_input (text : String) (min_length max_length : Nat) : Bool × String :=
  if (pyStripStr text).length < min_length then
    (false, "Text must contain at least " ++ toString min_length ++ " character(s)")
  else if text.length > max_length then
    (false, "Text exceeds maximum length of " ++ toString max_length ++ " characters")
  else if pyStripStr text = "" then
    (false, "Text cannot be empty or contain only whitespace")
  else (true, "")

/-- A value stored under a key of an email dict: a string or some
non-string Python value. -/
inductive Field where
  | str : String → Field
  | nonStr : Field
deriving DecidableEq

/-- An email record as built by `fetch_emails`: each required key is
present (`some`) or absent (`none`).  Only the four fields inspected by
`validate_email_data` are modelled. -/
structure Email where
  subject : Option Field
  sender : Option Field
  raw_content : Option Field
  cleaned_content : Option Field
deriving DecidableEq

/-- `EMAIL_VALIDATION["max_size"]` from `config.py`. -/
def emailMaxSize : Nat := 1000000

/-- One step of `validate_email_data`'s field loop: missing key, then
non-string value. -/
def checkField (name : String) (v : Option Field) : Option (Bool × String) :=
  match v with
  | none => some (false, "Email missing required field: " ++ name)
  | some Field.nonStr => some (false, "Field '" ++ name ++ "' must be a string")
  | some (Field.str _) => none

/-- Length of `email.get("raw_content", "")`, evaluated after the field
checks guarantee it is a string. -/
def rawContentLen (e : Email) : Nat :=
  match e.raw_content with
  | some (Field.str s) => s.length
  | _ => 0

/-- `validation_utils.validate_email_data`: required fields
`subject`, `sender`, `raw_content`, `cleaned_content` must be present and
strings (checked in that order), and the raw content must not exceed
`EMAIL_VALIDATION["max_size"]`. -/
def validate_email_data (e : Email) : Bool × String :=
  match checkField "subject" e.subject with
  | some r => r
  | none =>
    match checkField "sender" e.sender with
    | some r => r
    | none =>
      match checkField "raw_content" e.raw_content with
      | some r => r
      | none =>
        match checkField "cleaned_content" e.cleaned_content with
        | some r => r
        | none =>
          if rawContentLen e > emailMaxSize then
            (false, "Email content exceeds maximum size")
          else (true, "")

/-- The argument of `validate_batch_emails`: either not a Python list at
all, or a list of email records. -/
inductive Batch where
  | notList : Batch
  | mk : List Email → Batch

/-- The loop body of `validate_batch_emails`: accumulate survivors and the
invalid count. -/
def batchStep (acc : List Email × Nat) (e : Email) : List Email × Nat :=
  if (validate_email_data e).1 then (acc.1 ++ [e], acc.2) else (acc.1, acc.2 + 1)

/-- `validation_utils.validate_batch_emails`. -/
def validate_batch_emails : Batch → Bool × String × List Email
  | Batch.notList => (false, "Emails must be a list", [])
  | Batch.mk emails =>
    if emails.length = 0 then (false, "No emails provided", [])
    else
      let r := emails.foldl batchStep ([], 0)
      let valid_emails := r.1
      let invalid_count := r.2
      if invalid_count > 0 ∧ valid_emails.length = 0 then
        (false, "All " ++ toString invalid_count ++ " emails failed validation", [])
      else if invalid_count > 0 then
        (true, "Validated " ++ toString valid_emails.length ++ " email(s), skipped " ++
          toString invalid_count ++ " invalid email(s)", valid_emails)
      else (true, "", valid_emails)

/-! ## Tokenizer pipeline (`text_utils.transform_text`)

The NLTK tokenizer, Porter stemmer and English stopword list are external
library components (the spec's §4.4 treats them as part of the frozen
model's contract).  They are passed as parameters, so every theorem below
holds for *any* tokenizer/stemmer/stopword set. -/

/-- Models Python's `str.isalnum` at the ASCII level: nonempty and all
characters alphanumeric. -/
def pyIsAlnum (w : String) : Bool :=
  w ≠ "" && w.data.all Char.isAlphanum

/-- `string.punctuation` from the Python stdlib. -/
def punctuationStr : String := "!\"#$%&'()*+,-./:;<=>?@[\\]^_`\x7b|\x7d~"

/-- Models Python's `word in string.punctuation` (substring containment). -/
def inPunctuation (w : String) : Bool :=
  decide (w.data <:+: punctuationStr.data)

/-- `text_utils.transform_text`, parametric in the external NLTK
components: lower-case, tokenize, keep alphanumeric tokens, drop stopwords
and punctuation, stem, and join with single spaces.  Empty input
short-circuits to `""`. -/
def transform_text (tokenize : String → List String) (stem : String → String)
    (stops : List String) (text : String) : String :=
  if text = "" then ""
  else
    let toks := tokenize (pyLower text)
    let toks := toks.filter pyIsAlnum
    let toks := toks.filter (fun w => ¬ (w ∈ stops) ∧ ¬ (inPunctuation w = true))
    let toks := toks.map stem
    String.intercalate " " toks

/-! ## Classifier wrapper (`model_utils.predict_spam`)

The frozen vectorizer/classifier pair is external: its three operations are
modelled as functions into `Except String _`, where `Except.error` stands
for a raised exception (caught by the `try/except` around the prediction
calls).  The confidence is modelled as a rational. -/

/-- `TEXT_VALIDATION` bounds from `config.py`. -/
def textMinLength : Nat := 1

/-- `TEXT_VALIDATION["max_length"]` from `config.py`. -/
def textMaxLength : Nat := 100000

/-- `model_utils.predict_spam`, parametric in the external NLTK components
and in the frozen model's `transform` / `predict` / `predict_proba`
(the `[0]` indexing and `.max()` of the source are absorbed into the
modelled operations).  Returns `(none, 0)` — Python's `(None, 0.0)` — when
validation fails, when the transformed text is empty, or when any model
operation raises. -/
def predict_spam (α : Type) (tokenize : String → List String) (stem : String → String)
    (stops : List String) (text : String)
    (tfidfTransform : String → Except String α)
    (modelPredict : α → Except String Int)
    (modelPredictProba : α → Except String ℚ) : Option Int × ℚ :=
  if (validate_text_input text textMinLength textMaxLength).1 = false then (none, 0)
  else
    let transformed := transform_text tokenize stem stops text
    if transformed = "" then (none, 0)
    else
      match tfidfTransform transformed with
      | Except.error _ => (none, 0)
      | Except.ok v =>
        match modelPredict v with
        | Except.error _ => (none, 0)
        | Except.ok pred =>
          match modelPredictProba v with
          | Except.error _ => (none, 0)
          | Except.ok prob => (some pred, prob)

/-! ## Content extraction (`gmail_utils.extract_email_content`)

A Gmail payload dict is modelled as a tree: `mimeType` key (optional
string), `body` key (optionally present, itself with an optional `data`
key), and `parts` key (optionally present list of child parts). -/

/-- One node of a message payload tree. -/
inductive MsgPart where
  | mk : Option String → Option (Option String) → Option (List MsgPart) → MsgPart

/-- The `mimeType` key. -/
def MsgPart.mimeType : MsgPart → Option String
  | MsgPart.mk m _ _ => m

/-- The `body` key (outer option: key present; inner: `data` key present). -/
def MsgPart.body : MsgPart → Option (Option String)
  | MsgPart.mk _ b _ => b

/-- The `parts` key. -/
def MsgPart.parts : MsgPart → Option (List MsgPart)
  | MsgPart.mk _ _ ps => ps

/-- Truthiness of `"body" in payload and payload["body"].get("data")`:
the body key is present and carries a nonempty `data` string. -/
def bodyTruthy : Option (Option String) → Bool
  | some (some d) => d ≠ ""
  | _ => false

/-- `decode_part` applied to a body: if the `data` key is present, decode
it from base64url and UTF-8 (errors replaced); otherwise, or on a decoding
error, return `""`. -/
def decodeData : Option (Option String) → String
  | some (some d) => decodeB64ToStr d
  | _ => ""

/-- `gmail_utils.decode_part`. -/
def decode_part (p : MsgPart) : String := decodeData p.body

/-- Condition of the first child scan:
`part.get("mimeType") == "text/plain" and part.get("body", {}).get("data")`. -/
def isPlainTruthy (p : MsgPart) : Bool :=
  p.mimeType == some "text/plain" && bodyTruthy p.body

/-- Condition of the second child scan:
`part.get("mimeType", "").startswith("text/html") and
part.get("body", {}).get("data")`. -/
def isHtmlTruthy (p : MsgPart) : Bool :=
  pyStartswith (p.mimeType.getD "") "text/html" && bodyTruthy p.body

/-- The first `for` loop of `extract_email_content`: first child that is
exactly `text/plain` with truthy body data. -/
def loopPlain : List MsgPart → Option MsgPart
  | [] => none
  | p :: rest => if isPlainTruthy p then some p else loopPlain rest

/-- The second `for` loop: first child whose type starts with `text/html`
and has truthy body data. -/
def loopHtml : List MsgPart → Option MsgPart
  | [] => none
  | p :: rest => if isHtmlTruthy p then some p else loopHtml rest

mutual

/-- `gmail_utils.extract_email_content`: direct body first (HTML-cleaned
when the payload's type starts with `text/html`), then the `text/plain`
child scan, then the `text/html` child scan, then recursion into children
that have a `parts` key (first non-empty result wins), else `""`. -/
def extract_email_content (payload : MsgPart) : String :=
  match payload with
  | MsgPart.mk mime body parts =>
    if bodyTruthy body then
      if pyStartswith (mime.getD "") "text/html" then clean_html (decodeData body)
      else decodeData body
    else
      match parts with
      | some ps =>
        match loopPlain ps with
        | some p => decode_part p
        | none =>
          match loopHtml ps with
          | some p => clean_html (decode_part p)
          | none => scanNested ps
      | none => ""
termination_by sizeOf payload
decreasing_by all_goals (simp_wf; try omega)

/-- The third `for` loop of `extract_email_content`: recurse into each
child that has a `parts` key, returning the first truthy (non-empty)
result. -/
def scanNested : List MsgPart → String
  | [] => ""
  | p :: rest =>
    if (MsgPart.parts p).isSome then
      let r := extract_email_content p
      if r ≠ "" then r else scanNested rest
    else scanNested rest
termination_by l => sizeOf l
decreasing_by all_goals (simp_wf; try omega)

end

mutual

/-- Fuel-bounded variant of `extract_email_content`: identical except that
each recursive step consumes one unit of fuel and exhausted fuel yields
`""`.  Used to settle whether the recursion depth of the source function is
bounded independently of its input. -/
def extractBounded : Nat → MsgPart → String
  | 0, _ => ""
  | fuel + 1, MsgPart.mk mime body parts =>
    if bodyTruthy body then
      if pyStartswith (mime.getD "") "text/html" then clean_html (decodeData body)
      else decodeData body
    else
      match parts with
      | some ps =>
        match loopPlain ps with
        | some p => decode_part p
        | none =>
          match loopHtml ps with
          | some p => clean_html (decode_part p)
          | none => scanNestedBounded fuel ps
      | none => ""
termination_by fuel payload => (fuel, sizeOf payload)
decreasing_by all_goals (simp_wf; try omega)

/-- Fuel-bounded variant of `scanNested`. -/
def scanNestedBounded : Nat → List MsgPart → String
  | _, [] => ""
  | fuel, p :: rest =>
    if (MsgPart.parts p).isSome then
      let r := extractBounded fuel p
      if r ≠ "" then r else scanNestedBounded fuel rest
    else scanNestedBounded fuel rest
termination_by fuel l => (fuel, sizeOf l)
decreasing_by all_goals (simp_wf; try omega)

end

/-! ## Theorems -/

/-- Claim C6: `clean_text_for_model "Check http://evil.com now <b>bold</b>"`
equals `"Check now bold"`: the URL and the tags are removed, whitespace runs
are collapsed to single spaces, the ends are trimmed, and no URL or
angle-bracket fragment remains in the output. -/
theorem c6_clean_for_model_example :
    clean_text_for_model "Check http://evil.com now <b>bold</b>" = "Check now bold" ∧
    ¬ ("http://".data <:+: "Check now bold".data) ∧
    '<' ∉ "Check now bold".data ∧ '>' ∉ "Check now bold".data := by
  refine ⟨by decide, by decide, by decide, by decide⟩

/-- Claim C7 (corrected): at `min_length = 1` the empty string fails the
stripped-minimum-length check *first*, so the reason returned for `""` is
the length-too-short reason, not the dedicated empty/whitespace reason
(which is unreachable unless `min_length = 0`); `"hi"` validates with an
empty reason; the three reachable reason strings are pairwise distinct. -/
theorem c7_validate_text_reasons :
    validate_text_input "" 1 100000 =
      (false, "Text must contain at least 1 character(s)") ∧
    validate_text_input "hi" 1 100000 = (true, "") ∧
    validate_text_input "" 0 100000 =
      (false, "Text cannot be empty or contain only whitespace") ∧
    validate_text_input "abc" 1 2 =
      (false, "Text exceeds maximum length of 2 characters") ∧
    ("Text must contain at least 1 character(s)" ≠
      "Text cannot be empty or contain only whitespace") ∧
    ("Text must contain at least 1 character(s)" ≠
      "Text exceeds maximum length of 100000 characters") ∧
    ("Text cannot be empty or contain only whitespace" ≠
      "Text exceeds maximum length of 100000 characters") := by
  refine ⟨by decide, by decide, by decide, ?_, by decide, by decide, by decide⟩
  decide

/-- Claim C7, counterexample: `validate_text_input "" 1 100000` does *not*
return the empty/whitespace-only reason — it returns the length-too-short
reason, because the stripped-length check precedes the emptiness check. -/
theorem c7_cex_empty_reason :
    (validate_text_input "" 1 100000).2 = "Text must contain at least 1 character(s)" ∧
    (validate_text_input "" 1 100000).2 ≠ "Text cannot be empty or contain only whitespace" := by
  exact ⟨by decide, by decide⟩

/-- Claim C10: `clean_html` strips tags *before* decoding entities, so
entity-encoded markup survives to the output (`&lt;b&gt;Hi&lt;/b&gt;`
becomes the literal `<b>Hi</b>`), each stripped tag is replaced by one
space rather than deleted, and performing the two phases in the opposite
order would give a different result on this input. -/
theorem c10_clean_html_order :
    clean_html "&lt;b&gt;Hi&lt;/b&gt;" = "<b>Hi</b>" ∧
    clean_html "a<b>c" = "a c" ∧
    clean_html "<b>Hi</b>" = " Hi " ∧
    unescapeHtmlChars (subPatF matchTagPlusLen 0 "&lt;b&gt;Hi&lt;/b&gt;".data) ≠
      subPatF matchTagPlusLen 0 (unescapeHtmlChars "&lt;b&gt;Hi&lt;/b&gt;".data) := by
  exact ⟨by decide, by decide, by decide, by decide⟩

/-- If the stripped text is empty, `validate_text_input` at the configured
bounds fails (used by the C3 short-circuit). -/
theorem validate_fail_of_strip_empty (text : String) (h : pyStripStr text = "") :
    (validate_text_input text 1 100000).1 = false := by
  unfold validate_text_input
  rw [h]
  simp

/-- Claim C3: `transform_text` maps the empty string to the empty string,
and on an empty or whitespace-only input `predict_spam` returns
`(None, 0.0)` for *every* vectorizer/classifier (so in particular without
invoking any of them: the result does not depend on `f`, `g`, `h`), and for
every tokenizer/stemmer/stopword set. -/
theorem c3_empty_short_circuit :
    (∀ (tokenize : String → List String) (stem : String → String) (stops : List String),
      transform_text tokenize stem stops "" = "") ∧
    (∀ (α : Type) (tokenize : String → List String) (stem : String → String)
        (stops : List String) (text : String)
        (f : String → Except String α) (g : α → Except String Int)
        (h : α → Except String ℚ),
      pyStripStr text = "" →
      predict_spam α tokenize stem stops text f g h = (none, 0)) := by
  constructor
  · intro tokenize stem stops
    simp [transform_text]
  · intro α tokenize stem stops text f g h hstrip
    unfold predict_spam
    rw [show textMinLength = 1 from rfl, show textMaxLength = 100000 from rfl,
      validate_fail_of_strip_empty text hstrip]
    simp

/-- Claim C3, witness: the whitespace-only input `" "` with a concrete
model. -/
theorem c3_empty_short_circuit_witness :
    pyStripStr " " = "" ∧
    predict_spam Unit (fun s => [s]) (fun w => w) [] " "
      (fun _ => Except.ok ()) (fun _ => Except.ok 1) (fun _ => Except.ok 1) = (none, 0) :=
  ⟨by decide, c3_empty_short_circuit.2 Unit (fun s => [s]) (fun w => w) [] " "
    (fun _ => Except.ok ()) (fun _ => Except.ok 1) (fun _ => Except.ok 1) (by decide)⟩

/-- Claim C8: whatever the input text, if the vectorizer's `transform`
raises, or the classifier's `predict` raises, or `predict_proba` raises
(`Except.error`), `predict_spam` returns `(None, 0.0)`; being a total Lean
function, it propagates no exception. -/
theorem c8_model_errors_contained (α : Type) (tokenize : String → List String)
    (stem : String → String) (stops : List String) (text : String)
    (f : String → Except String α) (g : α → Except String Int)
    (h : α → Except String ℚ) (e : String) :
    (f (transform_text tokenize stem stops text) = Except.error e →
      predict_spam α tokenize stem stops text f g h = (none, 0)) ∧
    (∀ v, f (transform_text tokenize stem stops text) = Except.ok v →
      g v = Except.error e →
      predict_spam α tokenize stem stops text f g h = (none, 0)) ∧
    (∀ v pred, f (transform_text tokenize stem stops text) = Except.ok v →
      g v = Except.ok pred → h v = Except.error e →
      predict_spam α tokenize stem stops text f g h = (none, 0)) := by
  unfold predict_spam
  refine ⟨fun hf => ?_, fun v hf hg => ?_, fun v pred hf hg hh => ?_⟩
  · split
    · rfl
    · dsimp only
      split
      · rfl
      · simp [hf]
  · split
    · rfl
    · dsimp only
      split
      · rfl
      · simp [hf, hg]
  · split
    · rfl
    · dsimp only
      split
      · rfl
      · simp [hf, hg, hh]

/-- Claim C8, witness: a concrete throwing vectorizer on a valid input. -/
theorem c8_model_errors_contained_witness :
    predict_spam Unit (fun s => [s]) (fun w => w) [] "hi"
      (fun _ => Except.error "boom") (fun _ => Except.ok 1) (fun _ => Except.ok 1) =
      (none, 0) :=
  (c8_model_errors_contained Unit (fun s => [s]) (fun w => w) [] "hi"
    (fun _ => Except.error "boom") (fun _ => Except.ok 1) (fun _ => Except.ok 1) "boom").1
    rfl

/-- The `validate_batch_emails` loop accumulates exactly the records that
pass `validate_email_data` (in order) and counts the failures. -/
theorem batch_foldl_eq (es : List Email) (acc : List Email) (n : Nat) :
    es.foldl batchStep (acc, n) =
      (acc ++ es.filter (fun e => (validate_email_data e).1),
       n + es.countP (fun e => !(validate_email_data e).1)) := by
  induction es generalizing acc n with
  | nil => simp
  | cons e rest ih =>
    by_cases hpass : (validate_email_data e).1
    · simp [List.foldl_cons, batchStep, hpass, ih, List.filter_cons, List.countP_cons]
    · simp only [Bool.not_eq_true] at hpass
      simp [List.foldl_cons, batchStep, hpass, ih, List.filter_cons, List.countP_cons]
      omega

/-- Claim C2: `validate_batch_emails` on a non-list or on an empty list is
`(false, reason, [])`; when every record fails it is `(false, aggregate
reason, [])`; when some but not all records fail it is `(true, a reason
naming the number skipped, exactly the survivors)` — the batch is never
entirely discarded merely because some (but not all) entries are invalid —
and when all records pass it is `(true, "", all records)`. -/
theorem c2_validate_batch :
    (validate_batch_emails Batch.notList = (false, "Emails must be a list", [])) ∧
    (validate_batch_emails (Batch.mk []) = (false, "No emails provided", [])) ∧
    (∀ es : List Email, es ≠ [] → (∀ e ∈ es, (validate_email_data e).1 = false) →
      validate_batch_emails (Batch.mk es) =
        (false, "All " ++ toString es.length ++ " emails failed validation", [])) ∧
    (∀ es : List Email,
      (∃ e ∈ es, (validate_email_data e).1 = false) →
      (∃ e ∈ es, (validate_email_data e).1 = true) →
      validate_batch_emails (Batch.mk es) =
        (true,
         "Validated " ++ toString (es.filter (fun e => (validate_email_data e).1)).length ++
           " email(s), skipped " ++ toString (es.countP (fun e => !(validate_email_data e).1)) ++
           " invalid email(s)",
         es.filter (fun e => (validate_email_data e).1))) ∧
    (∀ es : List Email, es ≠ [] → (∀ e ∈ es, (validate_email_data e).1 = true) →
      validate_batch_emails (Batch.mk es) = (true, "", es)) := by
  refine ⟨rfl, rfl, ?_, ?_, ?_⟩
  · intro es hne hall
    have hfilter : es.filter (fun e => (validate_email_data e).1) = [] :=
      List.filter_eq_nil_iff.2 (by intro e he; simp [hall e he])
    have hcount : es.countP (fun e => !(validate_email_data e).1) = es.length :=
      List.countP_eq_length.2 (by intro e he; simp [hall e he])
    have hpos : 0 < es.length := List.length_pos.2 hne
    unfold validate_batch_emails
    dsimp only
    rw [if_neg (by simp [List.length_eq_zero, hne])]
    simp only [batch_foldl_eq, List.nil_append, Nat.zero_add, hfilter, hcount,
      List.length_nil]
    rw [if_pos ⟨hpos, trivial⟩]
  · intro es hbadex hgoodex
    obtain ⟨ebad, hbadmem, hbad⟩ := hbadex
    obtain ⟨egood, hgoodmem, hgood⟩ := hgoodex
    have hne : es ≠ [] := by rintro rfl; exact absurd hgoodmem (by simp)
    have hsurv : egood ∈ es.filter (fun e => (validate_email_data e).1) :=
      List.mem_filter.2 ⟨hgoodmem, hgood⟩
    have hlen : (es.filter (fun e => (validate_email_data e).1)).length ≠ 0 := by
      simp only [ne_eq, List.length_eq_zero]
      intro hnil; rw [hnil] at hsurv; exact absurd hsurv (by simp)
    have hcnt : 0 < es.countP (fun e => !(validate_email_data e).1) :=
      List.countP_pos_iff.2 ⟨ebad, hbadmem, by simp [hbad]⟩
    unfold validate_batch_emails
    dsimp only
    rw [if_neg (by simp [List.length_eq_zero, hne])]
    simp only [batch_foldl_eq, List.nil_append, Nat.zero_add]
    rw [if_neg (fun hc => hlen hc.2), if_pos hcnt]
  · intro es hne hall
    have hfilter : es.filter (fun e => (validate_email_data e).1) = es :=
      List.filter_eq_self.2 (by intro e he; simp [hall e he])
    have hcount : es.countP (fun e => !(validate_email_data e).1) = 0 :=
      List.countP_eq_zero.2 (by intro e he; simp [hall e he])
    unfold validate_batch_emails
    dsimp only
    rw [if_neg (by simp [List.length_eq_zero, hne])]
    simp only [batch_foldl_eq, List.nil_append, Nat.zero_add, hfilter, hcount]
    rw [if_neg (by simp), if_neg (by simp)]

/-- A record passing every field check (used by the C2 witness). -/
def okEmail : Email :=
  { subject := some (Field.str "s"), sender := some (Field.str "f"),
    raw_content := some (Field.str "r"), cleaned_content := some (Field.str "c") }

/-- A record failing validation (missing subject), used by the C2 witness. -/
def badEmail : Email :=
  { subject := none, sender := some (Field.str "f"),
    raw_content := some (Field.str "r"), cleaned_content := some (Field.str "c") }

/-- Claim C2, witness: a two-record batch with one invalid record keeps the
valid one and reports one skip. -/
theorem c2_validate_batch_witness :
    validate_batch_emails (Batch.mk [okEmail, badEmail]) =
      (true, "Validated 1 email(s), skipped 1 invalid email(s)", [okEmail]) := by
  have h := c2_validate_batch.2.2.2.1 [okEmail, badEmail]
    ⟨badEmail, by decide, by decide⟩ ⟨okEmail, by decide, by decide⟩
  rw [h]
  decide

/-! ### Unfolding lemmas for the extraction recursion -/

/-- Branch 1 of `extract_email_content`: a truthy direct body is decoded,
HTML-cleaned when the payload's type starts with `text/html`. -/
theorem extract_body_branch (m : Option String) (b : Option (Option String))
    (ps : Option (List MsgPart)) (h : bodyTruthy b = true) :
    extract_email_content (MsgPart.mk m b ps) =
      if pyStartswith (m.getD "") "text/html" then clean_html (decodeData b)
      else decodeData b := by
  rw [extract_email_content.eq_def]
  simp only [h]
  rfl

/-- Branch 2 of `extract_email_content`: no truthy direct body but a
`parts` key. -/
theorem extract_parts_branch (m : Option String) (b : Option (Option String))
    (ps : List MsgPart) (h : bodyTruthy b = false) :
    extract_email_content (MsgPart.mk m b (some ps)) =
      match loopPlain ps with
      | some p => decode_part p
      | none =>
        match loopHtml ps with
        | some p => clean_html (decode_part p)
        | none => scanNested ps := by
  rw [extract_email_content.eq_def]
  simp only [h]
  rfl

/-- No truthy direct body and no `parts` key: empty result. -/
theorem extract_none_branch (m : Option String) (b : Option (Option String))
    (h : bodyTruthy b = false) :
    extract_email_content (MsgPart.mk m b none) = "" := by
  rw [extract_email_content.eq_def]
  simp only [h]
  rfl

/-- `scanNested` on the empty list. -/
theorem scanNested_nil : scanNested [] = "" := by
  rw [scanNested.eq_def]

/-- `scanNested` on a cons. -/
theorem scanNested_cons (p : MsgPart) (rest : List MsgPart) :
    scanNested (p :: rest) =
      if (MsgPart.parts p).isSome then
        if extract_email_content p ≠ "" then extract_email_content p else scanNested rest
      else scanNested rest := by
  rw [scanNested.eq_def]

/-- The first child loop is `List.find?` of its condition. -/
theorem loopPlain_eq_find (ps : List MsgPart) :
    loopPlain ps = ps.find? isPlainTruthy := by
  induction ps with
  | nil => rfl
  | cons p rest ih =>
    by_cases h : isPlainTruthy p = true
    · simp [loopPlain, List.find?, h]
    · simp only [Bool.not_eq_true] at h
      simp [loopPlain, List.find?, h, ih]

/-- The second child loop is `List.find?` of its condition. -/
theorem loopHtml_eq_find (ps : List MsgPart) :
    loopHtml ps = ps.find? isHtmlTruthy := by
  induction ps with
  | nil => rfl
  | cons p rest ih =>
    by_cases h : isHtmlTruthy p = true
    · simp [loopHtml, List.find?, h]
    · simp only [Bool.not_eq_true] at h
      simp [loopHtml, List.find?, h, ih]

/-- The nested-recursion loop returns the first non-empty extraction among
the children that have a `parts` key (and `""` if there is none). -/
theorem scanNested_eq_find (ps : List MsgPart) :
    scanNested ps =
      (((ps.filter (fun p => (MsgPart.parts p).isSome)).map
          extract_email_content).find? (fun s => s != "")).getD "" := by
  induction ps with
  | nil => simp [scanNested_nil]
  | cons p rest ih =>
    rw [scanNested_cons]
    by_cases hp : (MsgPart.parts p).isSome
    · rw [if_pos hp]
      by_cases hr : extract_email_content p ≠ ""
      · rw [if_pos hr]
        simp [List.filter_cons, hp, List.find?, hr]
      · rw [if_neg hr]
        push_neg at hr
        simp [List.filter_cons, hp, List.find?, hr, ih]
    · rw [if_neg hp]
      simp only [Bool.not_eq_true] at hp
      simp [List.filter_cons, hp, ih]

/-- The `text/plain` leaf of the concrete extraction examples:
body data is base64url for `"Hello"`. -/
def plainLeaf : MsgPart := MsgPart.mk (some "text/plain") (some (some "SGVsbG8=")) none

/-- A `text/html` leaf whose body data is base64url for `"<b>Hi</b>"`. -/
def htmlLeaf : MsgPart := MsgPart.mk (some "text/html") (some (some "PGI-SGk8L2I-")) none

/-- A `text/plain` child whose body data `"A"` is present and truthy but
*not* decodable (`binascii.Error` in CPython). -/
def badPlainLeaf : MsgPart := MsgPart.mk (some "text/plain") (some (some "A")) none

/-- Payload with no direct body and one `text/plain` child. -/
def exPlain : MsgPart := MsgPart.mk none none (some [plainLeaf])

/-- Payload with no direct body and only a `text/html` child. -/
def exHtml : MsgPart := MsgPart.mk none none (some [htmlLeaf])

/-- Payload whose first `text/plain` child has an undecodable body and
whose second `text/plain` child decodes to `"Hello"`. -/
def exScan : MsgPart := MsgPart.mk none none (some [badPlainLeaf, plainLeaf])

/-- Claim C1, counterexample: (i) for the payload with only a `text/html`
child encoding `<b>Hi</b>` the result is `" Hi "` — the tags become spaces
and nothing is trimmed — not `"Hi"` as claimed; (ii) the child scan picks
the first `text/plain` child with *truthy* (present, nonempty) data, not
the first with a *decodable* body: with an undecodable first child
(`"A"` raises in CPython, modelled by `pyUrlsafeB64Decode "A" = none`) the
scan does not continue to the decodable `"Hello"` child — the whole
extraction returns `""`. -/
theorem c1_cex_priority :
    extract_email_content exHtml = " Hi " ∧
    " Hi " ≠ "Hi" ∧
    extract_email_content exScan = "" ∧
    pyUrlsafeB64Decode "A" = none ∧
    decode_part plainLeaf = "Hello" := by
  refine ⟨?_, by decide, ?_, by decide, by decide⟩
  · show extract_email_content (MsgPart.mk none none (some [htmlLeaf])) = " Hi "
    rw [extract_parts_branch none none [htmlLeaf] rfl]
    decide
  · show extract_email_content (MsgPart.mk none none (some [badPlainLeaf, plainLeaf])) = ""
    rw [extract_parts_branch none none [badPlainLeaf, plainLeaf] rfl]
    decide

/-- Claim C1 (corrected): the priority order of `extract_email_content`.
If the payload's own body has truthy (present, nonempty) data it is decoded
and returned, HTML-to-text applied when the payload's `mimeType` starts
with `text/html`.  Otherwise, with children present: the first child with
`mimeType` exactly `text/plain` and truthy body data is decoded and its
decode returned verbatim (empty when the data does not decode — the scan
does not continue); otherwise the first child whose `mimeType` starts with
`text/html` and has truthy body data is decoded and tag-stripped;
otherwise the first non-empty recursive extraction among children having a
`parts` key; otherwise `""` (also when there is no `parts` key).  On the
concrete examples: the `text/plain` child `"SGVsbG8="` gives `"Hello"`,
and the `text/html` child encoding `<b>Hi</b>` gives `" Hi "` (each tag
replaced by a space, nothing trimmed). -/
theorem c1_extract_priority :
    (∀ (m : Option String) (b : Option (Option String)) (ps : Option (List MsgPart)),
      bodyTruthy b = true →
      extract_email_content (MsgPart.mk m b ps) =
        (if pyStartswith (m.getD "") "text/html" then clean_html (decodeData b)
         else decodeData b)) ∧
    (∀ (m : Option String) (b : Option (Option String)) (ps : List MsgPart) (p : MsgPart),
      bodyTruthy b = false → ps.find? isPlainTruthy = some p →
      extract_email_content (MsgPart.mk m b (some ps)) = decode_part p) ∧
    (∀ (m : Option String) (b : Option (Option String)) (ps : List MsgPart) (p : MsgPart),
      bodyTruthy b = false → ps.find? isPlainTruthy = none →
      ps.find? isHtmlTruthy = some p →
      extract_email_content (MsgPart.mk m b (some ps)) = clean_html (decode_part p)) ∧
    (∀ (m : Option String) (b : Option (Option String)) (ps : List MsgPart),
      bodyTruthy b = false → ps.find? isPlainTruthy = none →
      ps.find? isHtmlTruthy = none →
      extract_email_content (MsgPart.mk m b (some ps)) =
        (((ps.filter (fun p => (MsgPart.parts p).isSome)).map
            extract_email_content).find? (fun s => s != "")).getD "") ∧
    (∀ (m : Option String) (b : Option (Option String)),
      bodyTruthy b = false → extract_email_content (MsgPart.mk m b none) = "") ∧
    extract_email_content exPlain = "Hello" ∧
    extract_email_content exHtml = " Hi " := by
  refine ⟨extract_body_branch, ?_, ?_, ?_, extract_none_branch, ?_, ?_⟩
  · intro m b ps p hb hfind
    rw [extract_parts_branch m b ps hb, loopPlain_eq_find ps, hfind]
  · intro m b ps p hb hplain hhtml
    rw [extract_parts_branch m b ps hb, loopPlain_eq_find ps, hplain,
      loopHtml_eq_find ps, hhtml]
  · intro m b ps hb hplain hhtml
    rw [extract_parts_branch m b ps hb, loopPlain_eq_find ps, hplain,
      loopHtml_eq_find ps, hhtml, scanNested_eq_find ps]
  · show extract_email_content (MsgPart.mk none none (some [plainLeaf])) = "Hello"
    rw [extract_parts_branch none none [plainLeaf] rfl]
    decide
  · show extract_email_content (MsgPart.mk none none (some [htmlLeaf])) = " Hi "
    rw [extract_parts_branch none none [htmlLeaf] rfl]
    decide

/-- Claim C1, witness: the priority clauses applied at the concrete
`text/plain` example. -/
theorem c1_extract_priority_witness :
    extract_email_content (MsgPart.mk none none (some [plainLeaf])) = decode_part plainLeaf :=
  c1_extract_priority.2.1 none none [plainLeaf] plainLeaf rfl rfl

/-! ### Recursion bound (claim C9) -/

/-- Branch unfolding for `extractBounded` at positive fuel (same shape as
`extract_parts_branch`). -/
theorem extractBounded_parts_branch (fuel : Nat) (m : Option String)
    (b : Option (Option String)) (ps : List MsgPart) (h : bodyTruthy b = false) :
    extractBounded (fuel + 1) (MsgPart.mk m b (some ps)) =
      match loopPlain ps with
      | some p => decode_part p
      | none =>
        match loopHtml ps with
        | some p => clean_html (decode_part p)
        | none => scanNestedBounded fuel ps := by
  rw [extractBounded.eq_def]
  simp only [h]
  rfl

/-- Branch 1 of `extractBounded` at positive fuel. -/
theorem extractBounded_body_branch (fuel : Nat) (m : Option String)
    (b : Option (Option String)) (ps : Option (List MsgPart)) (h : bodyTruthy b = true) :
    extractBounded (fuel + 1) (MsgPart.mk m b ps) =
      if pyStartswith (m.getD "") "text/html" then clean_html (decodeData b)
      else decodeData b := by
  rw [extractBounded.eq_def]
  simp only [h]
  rfl

/-- No-parts branch of `extractBounded` at positive fuel. -/
theorem extractBounded_none_branch (fuel : Nat) (m : Option String)
    (b : Option (Option String)) (h : bodyTruthy b = false) :
    extractBounded (fuel + 1) (MsgPart.mk m b none) = "" := by
  rw [extractBounded.eq_def]
  simp only [h]
  rfl

/-- `scanNestedBounded` on the empty list. -/
theorem scanNestedBounded_nil (fuel : Nat) : scanNestedBounded fuel [] = "" := by
  rw [scanNestedBounded.eq_def]

/-- `scanNestedBounded` on a cons. -/
theorem scanNestedBounded_cons (fuel : Nat) (p : MsgPart) (rest : List MsgPart) :
    scanNestedBounded fuel (p :: rest) =
      if (MsgPart.parts p).isSome then
        if extractBounded fuel p ≠ "" then extractBounded fuel p
        else scanNestedBounded fuel rest
      else scanNestedBounded fuel rest := by
  rw [scanNestedBounded.eq_def]

/-- Every payload node has positive size. -/
theorem msgPart_sizeOf_pos (p : MsgPart) : 1 ≤ sizeOf p := by
  cases p with
  | mk m b ps => simp only [MsgPart.mk.sizeOf_spec]; omega

/-- A nested chain of single-child payloads of depth `n + 1`, ending in a
payload whose `text/plain` child decodes to `"Hello"`: forces
`extract_email_content` to recurse `n` times through its third loop. -/
def chainPart : Nat → MsgPart
  | 0 => MsgPart.mk none none (some [plainLeaf])
  | n + 1 => MsgPart.mk none none (some [chainPart n])

/-- Each chain node has no truthy body, no `text/plain` or `text/html`
match among its children, and a `parts` key. -/
theorem chainPart_shape (n : Nat) :
    (chainPart (n + 1) = MsgPart.mk none none (some [chainPart n])) ∧
    isPlainTruthy (chainPart n) = false ∧
    isHtmlTruthy (chainPart n) = false ∧
    (MsgPart.parts (chainPart n)).isSome = true := by
  refine ⟨rfl, ?_, ?_, ?_⟩ <;> cases n <;> rfl

/-- The unbounded extraction succeeds on every chain: it recurses to the
bottom and extracts `"Hello"`. -/
theorem extract_chainPart (n : Nat) : extract_email_content (chainPart n) = "Hello" := by
  induction n with
  | zero =>
    show extract_email_content (MsgPart.mk none none (some [plainLeaf])) = "Hello"
    rw [extract_parts_branch none none [plainLeaf] rfl]
    decide
  | succ n ih =>
    rw [(chainPart_shape n).1, extract_parts_branch none none [chainPart n] rfl]
    have hplain : loopPlain [chainPart n] = none := by
      simp [loopPlain, (chainPart_shape n).2.1]
    have hhtml : loopHtml [chainPart n] = none := by
      simp [loopHtml, (chainPart_shape n).2.2.1]
    rw [hplain, hhtml]
    rw [scanNested_cons, if_pos (chainPart_shape n).2.2.2, ih]
    simp

/-- With fuel at most the chain length, the bounded extraction runs out of
fuel and returns `""`. -/
theorem extractBounded_chainPart (fuel n : Nat) (h : fuel ≤ n) :
    extractBounded fuel (chainPart n) = "" := by
  induction fuel generalizing n with
  | zero => rw [extractBounded.eq_def]
  | succ fuel ih =>
    match n, h with
    | n + 1, h =>
      rw [(chainPart_shape n).1,
        extractBounded_parts_branch fuel none none [chainPart n] rfl]
      have hplain : loopPlain [chainPart n] = none := by
        simp [loopPlain, (chainPart_shape n).2.1]
      have hhtml : loopHtml [chainPart n] = none := by
        simp [loopHtml, (chainPart_shape n).2.2.1]
      rw [hplain, hhtml]
      rw [scanNestedBounded_cons, if_pos (chainPart_shape n).2.2.2,
        ih n (Nat.le_of_succ_le_succ h)]
      simp [scanNestedBounded_nil]

/-- Claim C9, counterexample: there is no recursion bound independent of
the input — no fuel `B` makes the bounded depth-first search agree with
`extract_email_content` on all payloads, because the chain of depth `B + 1`
needs depth greater than `B`. -/
theorem c9_cex_no_uniform_bound :
    ¬ ∃ B : Nat, ∀ p : MsgPart, extractBounded B p = extract_email_content p := by
  rintro ⟨B, hB⟩
  have h := hB (chainPart B)
  rw [extractBounded_chainPart B B le_rfl, extract_chainPart B] at h
  exact absurd h (by decide)

/-- Claim C9 (corrected): `extract_email_content` is a depth-first search
over the part tree; modelled on finite trees it terminates on every input
(it is a total function), and the fuel-bounded variant agrees with it
whenever the fuel is at least the size of the tree — the recursion depth is
bounded by the input's size, not by an input-independent constant, and the
source contains no explicit recursion bound. -/
theorem c9_bounded_agrees (fuel : Nat) (p : MsgPart) (h : sizeOf p ≤ fuel) :
    extractBounded fuel p = extract_email_content p := by
  induction fuel generalizing p with
  | zero => exact absurd (Nat.le_trans (msgPart_sizeOf_pos p) h) (by decide)
  | succ fuel ih =>
    have hscan : ∀ ps : List MsgPart, sizeOf ps ≤ fuel →
        scanNestedBounded fuel ps = scanNested ps := by
      intro ps
      induction ps with
      | nil => intro _; rw [scanNestedBounded_nil, scanNested_nil]
      | cons q rest ihq =>
        intro hq
        have hq1 : sizeOf q ≤ fuel := by
          simp only [List.cons.sizeOf_spec] at hq; omega
        have hq2 : sizeOf rest ≤ fuel := by
          simp only [List.cons.sizeOf_spec] at hq; omega
        rw [scanNestedBounded_cons, scanNested_cons, ih q hq1, ihq hq2]
    cases p with
    | mk m b ps =>
      by_cases hb : bodyTruthy b = true
      · rw [extractBounded_body_branch fuel m b ps hb, extract_body_branch m b ps hb]
      · rw [Bool.not_eq_true] at hb
        cases ps with
        | none => rw [extractBounded_none_branch fuel m b hb, extract_none_branch m b hb]
        | some l =>
          have hl : sizeOf l ≤ fuel := by
            simp only [MsgPart.mk.sizeOf_spec, Option.some.sizeOf_spec] at h; omega
          rw [extractBounded_parts_branch fuel m b l hb, extract_parts_branch m b l hb]
          cases hplain : loopPlain l with
          | some q => rfl
          | none =>
            cases hhtml : loopHtml l with
            | some q => rfl
            | none => simp only [hscan l hl]

/-- Claim C9, witness: the bounded and unbounded extraction agree at a
concrete tree and sufficient fuel. -/
theorem c9_bounded_agrees_witness :
    extractBounded 100000 (chainPart 2) = extract_email_content (chainPart 2) :=
  c9_bounded_agrees 100000 (chainPart 2) (by decide)

/-! ### Link extraction (claim C4) -/

/-- `ls` occurs, disjointly and in order, inside `cs`: the matches of a
left-to-right scan. -/
inductive OccursInOrder : List (List Char) → List Char → Prop
  | nil (cs : List Char) : OccursInOrder [] cs
  | here (l : List Char) (ls : List (List Char)) (rest : List Char) :
      OccursInOrder ls rest → OccursInOrder (l :: ls) (l ++ rest)
  | skip (c : Char) (ls : List (List Char)) (cs : List Char) :
      OccursInOrder ls cs → OccursInOrder ls (c :: cs)

/-- Anatomy of a URL match: a scheme prefix of the text followed by its
maximal non-whitespace run (nonempty). -/
theorem matchUrlLen_spec (cs : List Char) (n : Nat) (h : matchUrlLen cs = some n) :
    ∃ scheme : List Char,
      (scheme = "https://".data ∨ scheme = "http://".data) ∧ scheme <+: cs ∧
      n = scheme.length + nonWsLen (cs.drop scheme.length) ∧
      1 ≤ nonWsLen (cs.drop scheme.length) := by
  unfold matchUrlLen at h
  by_cases h8 : "https://".data.isPrefixOf cs
  · refine ⟨"https://".data, Or.inl rfl, List.isPrefixOf_iff_prefix.1 h8, ?_⟩
    have h' : (if nonWsLen (cs.drop 8) = 0 then none
        else some (8 + nonWsLen (cs.drop 8))) = some n := by
      simpa [h8] using h
    show n = 8 + nonWsLen (cs.drop 8) ∧ 1 ≤ nonWsLen (cs.drop 8)
    by_cases hm : nonWsLen (cs.drop 8) = 0
    · rw [if_pos hm] at h'; exact absurd h' (by simp)
    · rw [if_neg hm] at h'
      simp only [Option.some.injEq] at h'
      omega
  · by_cases h7 : "http://".data.isPrefixOf cs
    · refine ⟨"http://".data, Or.inr rfl, List.isPrefixOf_iff_prefix.1 h7, ?_⟩
      have h' : (if nonWsLen (cs.drop 7) = 0 then none
          else some (7 + nonWsLen (cs.drop 7))) = some n := by
        simpa [h8, h7] using h
      show n = 7 + nonWsLen (cs.drop 7) ∧ 1 ≤ nonWsLen (cs.drop 7)
      by_cases hm : nonWsLen (cs.drop 7) = 0
      · rw [if_pos hm] at h'; exact absurd h' (by simp)
      · rw [if_neg hm] at h'
        simp only [Option.some.injEq] at h'
        omega
    · simp [h8, h7] at h

/-- A URL match has positive length. -/
theorem matchUrlLen_pos (cs : List Char) (n : Nat) (h : matchUrlLen cs = some n) :
    1 ≤ n := by
  obtain ⟨scheme, -, -, hn, hm⟩ := matchUrlLen_spec cs n h
  omega

/-- No character of the maximal non-whitespace run is whitespace. -/
theorem nonWs_take (l : List Char) : ∀ c ∈ l.take (nonWsLen l), pyIsSpace c = false := by
  induction l with
  | nil => simp
  | cons a rest ih =>
    by_cases ha : pyIsSpace a
    · simp [nonWsLen, ha]
    · simp only [nonWsLen, ha, if_false, Bool.false_eq_true]
      rw [Nat.add_comm, List.take_succ_cons]
      intro c hc
      rcases List.mem_cons.1 hc with rfl | hc
      · simpa using ha
      · exact ih c hc

/-- Every URL match (as a prefix slice of the text) starts with a scheme
and contains no whitespace. -/
theorem url_take_props (cs : List Char) (n : Nat) (h : matchUrlLen cs = some n) :
    ("http://".data <+: cs.take n ∨ "https://".data <+: cs.take n) ∧
      ∀ c ∈ cs.take n, pyIsSpace c = false := by
  obtain ⟨scheme, hs, hpre, hn, hm⟩ := matchUrlLen_spec cs n h
  obtain ⟨t, rfl⟩ := hpre
  have hdrop : (scheme ++ t).drop scheme.length = t := List.drop_left scheme t
  rw [hdrop] at hn hm
  have htake : (scheme ++ t).take n = scheme ++ t.take (nonWsLen t) := by
    rw [hn, List.take_append]
  constructor
  · rw [htake]
    rcases hs with rfl | rfl
    · exact Or.inr ⟨t.take (nonWsLen t), rfl⟩
    · exact Or.inl ⟨t.take (nonWsLen t), rfl⟩
  · rw [htake]
    intro c hc
    rcases List.mem_append.1 hc with hc | hc
    · have hs8 : ∀ x ∈ "https://".data, pyIsSpace x = false := by decide
      have hs7 : ∀ x ∈ "http://".data, pyIsSpace x = false := by decide
      rcases hs with rfl | rfl
      · exact hs8 c hc
      · exact hs7 c hc
    · exact nonWs_take t c hc

/-- A positive skip state just drops the pending characters. -/
theorem findUrlsF_skip (l : List Char) : ∀ k, findUrlsF k l = findUrlsF 0 (l.drop k) := by
  induction l with
  | nil => intro k; cases k <;> rfl
  | cons c rest ih =>
    intro k
    cases k with
    | zero => rw [List.drop_zero]
    | succ k => rw [List.drop_succ_cons, ← ih k]; rfl

/-- The URL scanner's results occur disjointly, in left-to-right order,
inside the text. -/
theorem findUrls_occurs (N : Nat) : ∀ cs : List Char, cs.length ≤ N →
    OccursInOrder (findUrlsF 0 cs) cs := by
  induction N with
  | zero =>
    intro cs hcs
    rw [List.length_eq_zero.1 (Nat.le_zero.1 hcs)]
    exact OccursInOrder.nil []
  | succ N ih =>
    intro cs hcs
    cases cs with
    | nil => exact OccursInOrder.nil []
    | cons c rest =>
      cases hm : matchUrlLen (c :: rest) with
      | none =>
        show OccursInOrder (findUrlsF 0 (c :: rest)) (c :: rest)
        have hstep : findUrlsF 0 (c :: rest) = findUrlsF 0 rest := by
          simp [findUrlsF, hm]
        rw [hstep]
        have hlen : rest.length ≤ N := by
          simp only [List.length_cons] at hcs; omega
        exact OccursInOrder.skip c _ rest (ih rest hlen)
      | some n =>
        obtain ⟨m, rfl⟩ : ∃ m, n = m + 1 :=
          ⟨n - 1, by have := matchUrlLen_pos _ _ hm; omega⟩
        have hunfold : findUrlsF 0 (c :: rest) =
            (c :: rest).take (m + 1) :: findUrlsF m rest := by
          simp [findUrlsF, hm]
        rw [hunfold, findUrlsF_skip rest m]
        have hdrop : rest.drop m = (c :: rest).drop (m + 1) := List.drop_succ_cons.symm
        rw [hdrop]
        have hsplit : (c :: rest).take (m + 1) ++ (c :: rest).drop (m + 1) = c :: rest :=
          List.take_append_drop _ _
        have hrec : OccursInOrder (findUrlsF 0 ((c :: rest).drop (m + 1)))
            ((c :: rest).drop (m + 1)) := by
          apply ih
          rw [List.length_drop]
          simp only [List.length_cons] at hcs ⊢
          omega
        have := OccursInOrder.here ((c :: rest).take (m + 1))
          (findUrlsF 0 ((c :: rest).drop (m + 1))) ((c :: rest).drop (m + 1)) hrec
        rwa [hsplit] at this

/-- Every member of an in-order occurrence list is an infix. -/
theorem occurs_within {ls : List (List Char)} {cs : List Char}
    (h : OccursInOrder ls cs) : ∀ l ∈ ls, l <:+: cs := by
  induction h with
  | nil => simp
  | here l ls rest _ ih =>
    intro x hx
    rcases List.mem_cons.1 hx with rfl | hx
    · exact ⟨[], rest, rfl⟩
    · obtain ⟨s, t, rfl⟩ := ih x hx
      exact ⟨l ++ s, t, by simp⟩
  | skip c ls cs _ ih =>
    intro x hx
    obtain ⟨s, t, rfl⟩ := ih x hx
    exact ⟨c :: s, t, rfl⟩

/-- Every collected URL starts with a scheme and has no whitespace. -/
theorem findUrls_mem_props (N : Nat) : ∀ cs : List Char, cs.length ≤ N →
    ∀ l ∈ findUrlsF 0 cs,
      ("http://".data <+: l ∨ "https://".data <+: l) ∧
        ∀ c ∈ l, pyIsSpace c = false := by
  induction N with
  | zero =>
    intro cs hcs
    rw [List.length_eq_zero.1 (Nat.le_zero.1 hcs)]
    simp [findUrlsF]
  | succ N ih =>
    intro cs hcs
    cases cs with
    | nil => simp [findUrlsF]
    | cons c rest =>
      cases hm : matchUrlLen (c :: rest) with
      | none =>
        have : findUrlsF 0 (c :: rest) = findUrlsF 0 rest := by simp [findUrlsF, hm]
        rw [this]
        exact ih rest (by simp only [List.length_cons] at hcs; omega)
      | some n =>
        obtain ⟨m, rfl⟩ : ∃ m, n = m + 1 :=
          ⟨n - 1, by have := matchUrlLen_pos _ _ hm; omega⟩
        have hunfold : findUrlsF 0 (c :: rest) =
            (c :: rest).take (m + 1) :: findUrlsF m rest := by
          simp [findUrlsF, hm]
        rw [hunfold, findUrlsF_skip rest m]
        intro l hl
        rcases List.mem_cons.1 hl with rfl | hl
        · exact url_take_props (c :: rest) (m + 1) hm
        · refine ih (rest.drop m) ?_ l hl
          rw [List.length_drop]
          simp only [List.length_cons] at hcs
          omega

/-- Claim C4: every element of `extract_links text` is a contiguous
substring of `text` that starts with `http://` or `https://` and contains
no whitespace; the elements occur disjointly in `text` in left-to-right
order (duplicates preserved by construction); and the empty input gives
`[]`. -/
theorem c4_extract_links (text : String) :
    (∀ s ∈ extract_links text,
      s.data <:+: text.data ∧
      ("http://".data <+: s.data ∨ "https://".data <+: s.data) ∧
      ∀ c ∈ s.data, pyIsSpace c = false) ∧
    OccursInOrder ((extract_links text).map String.data) text.data ∧
    extract_links "" = [] := by
  refine ⟨?_, ?_, rfl⟩
  · intro s hs
    by_cases he : text = ""
    · rw [he] at hs; exact absurd hs (by simp [extract_links])
    · rw [extract_links, if_neg he] at hs
      obtain ⟨l, hl, rfl⟩ := List.mem_map.1 hs
      have hdata : (String.mk l).data = l := rfl
      rw [hdata]
      have h1 := occurs_within (findUrls_occurs text.data.length text.data le_rfl) l hl
      have h2 := findUrls_mem_props text.data.length text.data le_rfl l hl
      exact ⟨h1, h2.1, h2.2⟩
  · by_cases he : text = ""
    · rw [he]; exact OccursInOrder.nil _
    · rw [extract_links, if_neg he]
      have hmap : ∀ L : List (List Char), List.map String.data (L.map String.mk) = L := by
        intro L
        induction L with
        | nil => rfl
        | cons x xs ih => simp only [List.map_cons, ih]
      rw [hmap]
      exact findUrls_occurs text.data.length text.data le_rfl

/-- Claim C4, witness: the properties at a concrete text and link. -/
theorem c4_extract_links_witness :
    "http://a.com".data <:+: "see http://a.com and http://a.com".data ∧
    ("http://".data <+: "http://a.com".data ∨ "https://".data <+: "http://a.com".data) ∧
    ∀ c ∈ "http://a.com".data, pyIsSpace c = false :=
  (c4_extract_links "see http://a.com and http://a.com").1 "http://a.com" (by decide)

/-! ### Idempotence analysis of `clean_text_for_model` (claim C5)

The cleaning pipeline is *not* idempotent: stripping an HTML tag inside a
malformed `data:` URI can expose a well-formed `data:image/...;base64,...`
match that only the *second* pass removes (counterexample below).  The
positive result is conditional: on inputs containing none of the removable
fragments, one pass only collapses whitespace, and a second pass is the
identity. -/

/-- Prefixes extend along a common head. -/
theorem prefix_cons_cons {a : Char} {p l : List Char} (h : p <+: l) :
    a :: p <+: a :: l := by
  obtain ⟨t, rfl⟩ := h
  exact ⟨t, rfl⟩

/-- `out` is `cs` with some disjoint non-empty segments replaced by a
single `' '` each — the shape of every `re.sub(..., " ", ...)` output. -/
inductive SpaceSub : List Char → List Char → Prop
  | nil : SpaceSub [] []
  | keep (c : Char) {cs out : List Char} : SpaceSub cs out → SpaceSub (c :: cs) (c :: out)
  | repl {seg cs out : List Char} :
      seg ≠ [] → SpaceSub cs out → SpaceSub (seg ++ cs) (' ' :: out)

/-- A space-free prefix of the output is a prefix of the input. -/
theorem spaceSub_pre {cs out : List Char} (h : SpaceSub cs out) :
    ∀ p : List Char, (∀ c ∈ p, c ≠ ' ') → p <+: out → p <+: cs := by
  induction h with
  | nil =>
    intro p _ hp
    simpa using hp
  | keep c hsub ih =>
    intro p hfree hp
    cases p with
    | nil => exact List.nil_prefix
    | cons a p' =>
      obtain ⟨rfl, hp'⟩ := by simpa using hp
      exact prefix_cons_cons (ih p' (fun x hx => hfree x (List.mem_cons_of_mem _ hx)) hp')
  | repl hne hsub ih =>
    intro p hfree hp
    cases p with
    | nil => exact List.nil_prefix
    | cons a p' =>
      obtain ⟨rfl, -⟩ := by simpa using hp
      exact absurd rfl (hfree ' ' (List.mem_cons_self _ _))

/-- A space-free infix of the output is an infix of the input. -/
theorem spaceSub_within {cs out : List Char} (h : SpaceSub cs out) :
    ∀ p : List Char, (∀ c ∈ p, c ≠ ' ') → p <:+: out → p <:+: cs := by
  induction h with
  | nil =>
    intro p _ hp
    simpa using hp
  | keep c hsub ih =>
    intro p hfree hp
    rcases List.infix_cons_iff.1 hp with hp | hp
    · cases p with
      | nil => exact List.nil_infix
      | cons a p' =>
        obtain ⟨rfl, hp'⟩ := by simpa using hp
        exact (prefix_cons_cons (spaceSub_pre hsub p'
          (fun x hx => hfree x (List.mem_cons_of_mem _ hx)) hp')).isInfix
    · exact (ih p hfree hp).trans (List.infix_cons (List.infix_refl _))
  | repl hne hsub ih =>
    intro p hfree hp
    rcases List.infix_cons_iff.1 hp with hp | hp
    · cases p with
      | nil => exact List.nil_infix
      | cons a p' =>
        obtain ⟨rfl, -⟩ := by simpa using hp
        exact absurd rfl (hfree ' ' (List.mem_cons_self _ _))
    · exact (ih p hfree hp).trans (List.suffix_append _ _).isInfix

/-- A non-space character of the output occurs in the input. -/
theorem spaceSub_mem {cs out : List Char} (h : SpaceSub cs out) :
    ∀ c : Char, c ≠ ' ' → c ∈ out → c ∈ cs := by
  induction h with
  | nil => simp
  | keep a hsub ih =>
    intro c hc hmem
    rcases List.mem_cons.1 hmem with rfl | hmem
    · exact List.mem_cons_self _ _
    · exact List.mem_cons_of_mem _ (ih c hc hmem)
  | repl hne hsub ih =>
    intro c hc hmem
    rcases List.mem_cons.1 hmem with rfl | hmem
    · exact absurd rfl hc
    · exact List.mem_append_right _ (ih c hc hmem)

/-- `SpaceSub` is stable under lower-casing both sides. -/
theorem spaceSub_map_lower {cs out : List Char} (h : SpaceSub cs out) :
    SpaceSub (cs.map pyLowerChar) (out.map pyLowerChar) := by
  induction h with
  | nil => exact SpaceSub.nil
  | keep c hsub ih => exact SpaceSub.keep (pyLowerChar c) ih
  | repl hne hsub ih =>
    have : pyLowerChar ' ' = ' ' := rfl
    rw [List.map_cons, this, List.map_append]
    exact SpaceSub.repl (by simpa using hne) ih

/-- A positive skip state of `subPatF` just drops the pending characters. -/
theorem subPatF_skip (m : List Char → Option Nat) (l : List Char) :
    ∀ k, subPatF m k l = subPatF m 0 (l.drop k) := by
  induction l with
  | nil =>
    intro k
    cases k
    all_goals rfl
  | cons c rest ih =>
    intro k
    cases k with
    | zero => rw [List.drop_zero]
    | succ k => rw [List.drop_succ_cons, ← ih k]; rfl

/-- If the matcher matches at no suffix, the substitution is the
identity. -/
theorem subPatF_id (m : List Char → Option Nat) :
    ∀ l : List Char, (∀ s, s <:+ l → m s = none) → subPatF m 0 l = l := by
  intro l
  induction l with
  | nil => intro _; rfl
  | cons c rest ih =>
    intro h
    have hnone : m (c :: rest) = none := h _ (List.suffix_refl _)
    show subPatF m 0 (c :: rest) = c :: rest
    rw [subPatF, hnone]
    rw [ih (fun s hs => h s (hs.trans (List.suffix_cons c rest)))]

/-- Every substitution output is a `SpaceSub` of its input (matched
segments are nonempty because every matcher returns positive lengths). -/
theorem spaceSub_subPatF (m : List Char → Option Nat) :
    ∀ N l, l.length ≤ N → SpaceSub l (subPatF m 0 l) := by
  intro N
  induction N with
  | zero =>
    intro l hl
    rw [List.length_eq_zero.1 (Nat.le_zero.1 hl)]
    exact SpaceSub.nil
  | succ N ih =>
    intro l hl
    cases l with
    | nil => exact SpaceSub.nil
    | cons c rest =>
      cases hm : m (c :: rest) with
      | none =>
        have hstep : subPatF m 0 (c :: rest) = c :: subPatF m 0 rest := by
          rw [subPatF, hm]
        rw [hstep]
        exact SpaceSub.keep c (ih rest (by simp only [List.length_cons] at hl; omega))
      | some n =>
        have hstep : subPatF m 0 (c :: rest) = ' ' :: subPatF m (n - 1) rest := by
          rw [subPatF, hm]
        rw [hstep, subPatF_skip]
        have hsplit : (c :: rest.take (n - 1)) ++ rest.drop (n - 1) = c :: rest := by
          rw [List.cons_append, List.take_append_drop]
        have hrec : SpaceSub (rest.drop (n - 1)) (subPatF m 0 (rest.drop (n - 1))) := by
          apply ih
          rw [List.length_drop]
          simp only [List.length_cons] at hl
          omega
        have := @SpaceSub.repl (c :: rest.take (n - 1)) _ _ (by simp) hrec
        rwa [hsplit] at this

/-- A `www\.\S+` match starts with `www.`. -/
theorem matchWwwLen_pre (s : List Char) (n : Nat) (h : matchWwwLen s = some n) :
    "www.".data <+: s := by
  unfold matchWwwLen at h
  by_cases hp : "www.".data.isPrefixOf s
  · exact List.isPrefixOf_iff_prefix.1 hp
  · simp [hp] at h

/-- A data-URI match starts with `data:image/`. -/
theorem matchDataUriLen_pre (s : List Char) (n : Nat) (h : matchDataUriLen s = some n) :
    "data:image/".data <+: s := by
  unfold matchDataUriLen at h
  by_cases hp : "data:image/".data.isPrefixOf s
  · exact List.isPrefixOf_iff_prefix.1 hp
  · simp [hp] at h

/-- A `cid:` match starts (case-insensitively) with `cid:`. -/
theorem matchCidLen_pre (s : List Char) (n : Nat) (h : matchCidLen s = some n) :
    "cid:".data <+: s.map pyLowerChar := by
  unfold matchCidLen at h
  by_cases hp : "cid:".data.isPrefixOf (s.map pyLowerChar)
  · exact List.isPrefixOf_iff_prefix.1 hp
  · simp [hp] at h

/-- A tag match starts with `<`. -/
theorem matchTagStarLen_head (s : List Char) (n : Nat) (h : matchTagStarLen s = some n) :
    '<' ∈ s := by
  cases s with
  | nil => exact absurd h (by simp [matchTagStarLen])
  | cons c rest =>
    by_cases hc : c = '<'
    · rw [hc]; exact List.mem_cons_self _ _
    · rw [show matchTagStarLen (c :: rest) = none by simp [matchTagStarLen, hc]] at h
      exact absurd h (by simp)

/-- On a whitespace head the whitespace matcher returns the run length. -/
theorem matchWsLen_of_ws {c : Char} {rest : List Char} (h : pyIsSpace c = true) :
    matchWsLen (c :: rest) = some (1 + wsSpanLen rest) := by
  simp [matchWsLen, wsSpanLen, h]

/-- On a non-whitespace head the whitespace matcher fails. -/
theorem matchWsLen_of_nonws {c : Char} {rest : List Char} (h : pyIsSpace c = false) :
    matchWsLen (c :: rest) = none := by
  simp [matchWsLen, wsSpanLen, h]

/-- The character right after the maximal whitespace run is not
whitespace. -/
theorem drop_wsSpan_head (l : List Char) :
    ∀ c, (l.drop (wsSpanLen l)).head? = some c → pyIsSpace c = false := by
  induction l with
  | nil => simp
  | cons a rest ih =>
    intro c hc
    by_cases ha : pyIsSpace a
    · rw [show wsSpanLen (a :: rest) = 1 + wsSpanLen rest by simp [wsSpanLen, ha],
        Nat.add_comm, List.drop_succ_cons] at hc
      exact ih c hc
    · rw [show wsSpanLen (a :: rest) = 0 by simp [wsSpanLen, ha], List.drop_zero] at hc
      simp only [List.head?_cons, Option.some.injEq] at hc
      rw [← hc]
      simpa using ha

/-- One collapse step on a whitespace head: the whole run becomes one
space. -/
theorem collapse_ws_step {c : Char} {rest : List Char} (h : pyIsSpace c = true) :
    subPatF matchWsLen 0 (c :: rest) =
      ' ' :: subPatF matchWsLen 0 (rest.drop (wsSpanLen rest)) := by
  rw [subPatF, matchWsLen_of_ws h]
  dsimp only
  rw [show 1 + wsSpanLen rest - 1 = wsSpanLen rest by omega, subPatF_skip]

/-- One collapse step on a non-whitespace head: the character is copied. -/
theorem collapse_nonws_step {c : Char} {rest : List Char} (h : pyIsSpace c = false) :
    subPatF matchWsLen 0 (c :: rest) = c :: subPatF matchWsLen 0 rest := by
  rw [subPatF, matchWsLen_of_nonws h]

/-- The whitespace-collapsed output: every whitespace character is a plain
space, no two adjacent characters are both whitespace, and a whitespace
head can only come from a whitespace head of the input. -/
theorem collapse_out_props :
    ∀ N l, l.length ≤ N →
      (∀ c ∈ subPatF matchWsLen 0 l, pyIsSpace c = true → c = ' ') ∧
      (subPatF matchWsLen 0 l).Chain'
        (fun a b => ¬(pyIsSpace a = true ∧ pyIsSpace b = true)) ∧
      (∀ c, (subPatF matchWsLen 0 l).head? = some c → pyIsSpace c = true →
        ∃ d, l.head? = some d ∧ pyIsSpace d = true) := by
  intro N
  induction N with
  | zero =>
    intro l hl
    rw [List.length_eq_zero.1 (Nat.le_zero.1 hl)]
    refine ⟨by simp [subPatF], by simp [subPatF], by simp [subPatF]⟩
  | succ N ih =>
    intro l hl
    cases l with
    | nil => refine ⟨by simp [subPatF], by simp [subPatF], by simp [subPatF]⟩
    | cons c rest =>
      by_cases hc : pyIsSpace c
      · rw [collapse_ws_step hc]
        have hlen : (rest.drop (wsSpanLen rest)).length ≤ N := by
          rw [List.length_drop]
          simp only [List.length_cons] at hl
          omega
        obtain ⟨ha, hb, hh⟩ := ih (rest.drop (wsSpanLen rest)) hlen
        refine ⟨?_, ?_, ?_⟩
        · intro x hx hxs
          rcases List.mem_cons.1 hx with rfl | hx
          · rfl
          · exact ha x hx hxs
        · rw [List.chain'_cons']
          refine ⟨?_, hb⟩
          intro b hbhead
          rintro ⟨-, hbs⟩
          obtain ⟨d, hdhead, hds⟩ := hh b hbhead hbs
          exact absurd hds (by simpa using drop_wsSpan_head rest d hdhead)
        · intro x hx _
          exact ⟨c, rfl, hc⟩
      · simp only [Bool.not_eq_true] at hc
        rw [collapse_nonws_step hc]
        have hlen : rest.length ≤ N := by
          simp only [List.length_cons] at hl; omega
        obtain ⟨ha, hb, hh⟩ := ih rest hlen
        refine ⟨?_, ?_, ?_⟩
        · intro x hx hxs
          rcases List.mem_cons.1 hx with rfl | hx
          · rw [hxs] at hc; exact absurd hc (by simp)
          · exact ha x hx hxs
        · rw [List.chain'_cons']
          refine ⟨?_, hb⟩
          intro b _
          rintro ⟨hcs, -⟩
          rw [hcs] at hc
          exact absurd hc (by simp)
        · intro x hx hxs
          simp only [List.head?_cons, Option.some.injEq] at hx
          rw [← hx] at hxs
          rw [hxs] at hc
          exact absurd hc (by simp)

/-- Collapsing is the identity on already-normalized text (all whitespace
is `' '`, never adjacent). -/
theorem collapse_id :
    ∀ N l, l.length ≤ N →
      (∀ c ∈ l, pyIsSpace c = true → c = ' ') →
      l.Chain' (fun a b => ¬(pyIsSpace a = true ∧ pyIsSpace b = true)) →
      subPatF matchWsLen 0 l = l := by
  intro N
  induction N with
  | zero =>
    intro l hl _ _
    rw [List.length_eq_zero.1 (Nat.le_zero.1 hl)]
    rfl
  | succ N ih =>
    intro l hl h1 h2
    cases l with
    | nil => rfl
    | cons c rest =>
      have hlen : rest.length ≤ N := by simp only [List.length_cons] at hl; omega
      have h1' : ∀ x ∈ rest, pyIsSpace x = true → x = ' ' :=
        fun x hx => h1 x (List.mem_cons_of_mem _ hx)
      have h2' := (List.chain'_cons'.1 h2).2
      by_cases hc : pyIsSpace c
      · have hspan : wsSpanLen rest = 0 := by
          cases rest with
          | nil => rfl
          | cons r rest' =>
            have hrel := (List.chain'_cons'.1 h2).1 r rfl
            have hr : pyIsSpace r = false := by
              by_cases h : pyIsSpace r
              · exact absurd ⟨hc, h⟩ hrel
              · simpa using h
            simp [wsSpanLen, hr]
        rw [collapse_ws_step hc, hspan, List.drop_zero, ih rest hlen h1' h2',
          h1 c (List.mem_cons_self _ _) hc]
      · simp only [Bool.not_eq_true] at hc
        rw [collapse_nonws_step hc, ih rest hlen h1' h2']

/-- `str.strip` yields an infix of its argument. -/
theorem pyStrip_within (l : List Char) : pyStrip l <:+: l := by
  have h1 : l.dropWhile pyIsSpace <:+ l := List.dropWhile_suffix _
  have h2 : pyStrip l <+: l.dropWhile pyIsSpace := by
    unfold pyStrip dropTrailingWs
    rw [← List.reverse_suffix, List.reverse_reverse]
    exact List.dropWhile_suffix _
  exact h2.isInfix.trans h1.isInfix

/-- The head of `dropWhile p` does not satisfy `p`. -/
theorem dropWhile_head_not (p : Char → Bool) (l : List Char) :
    ∀ c, (l.dropWhile p).head? = some c → p c = false := by
  induction l with
  | nil => simp
  | cons a rest ih =>
    intro c hc
    by_cases ha : p a
    · rw [List.dropWhile_cons, if_pos ha] at hc
      exact ih c hc
    · rw [List.dropWhile_cons, if_neg ha] at hc
      simp only [List.head?_cons, Option.some.injEq] at hc
      rw [← hc]
      simpa using ha

/-- A nonempty prefix preserves the head. -/
theorem prefix_head {p l : List Char} (h : p <+: l) :
    ∀ c, p.head? = some c → l.head? = some c := by
  obtain ⟨t, rfl⟩ := h
  intro c hc
  cases p with
  | nil => exact absurd hc (by simp)
  | cons a p' => simpa using hc

/-- The head of a stripped string is not whitespace. -/
theorem pyStrip_head_not_ws (l : List Char) :
    ∀ c, (pyStrip l).head? = some c → pyIsSpace c = false := by
  intro c hc
  have h2 : pyStrip l <+: l.dropWhile pyIsSpace := by
    unfold pyStrip dropTrailingWs
    rw [← List.reverse_suffix, List.reverse_reverse]
    exact List.dropWhile_suffix _
  exact dropWhile_head_not pyIsSpace l c (prefix_head h2 c hc)

/-- The last character of a stripped string is not whitespace. -/
theorem pyStrip_last_not_ws (l : List Char) :
    ∀ c, (pyStrip l).getLast? = some c → pyIsSpace c = false := by
  intro c hc
  rw [List.getLast?_eq_head?_reverse] at hc
  unfold pyStrip dropTrailingWs at hc
  rw [List.reverse_reverse] at hc
  exact dropWhile_head_not pyIsSpace _ c hc

/-- Stripping is the identity when neither end is whitespace. -/
theorem strip_id (l : List Char)
    (hhead : ∀ c, l.head? = some c → pyIsSpace c = false)
    (hlast : ∀ c, l.getLast? = some c → pyIsSpace c = false) :
    pyStrip l = l := by
  have hdw : l.dropWhile pyIsSpace = l := by
    cases l with
    | nil => rfl
    | cons a rest =>
      rw [List.dropWhile_cons, if_neg (by simp [hhead a rfl])]
  unfold pyStrip dropTrailingWs
  rw [hdw]
  have hdwr : l.reverse.dropWhile pyIsSpace = l.reverse := by
    cases hrev : l.reverse with
    | nil => rfl
    | cons a rest =>
      have : l.getLast? = some a := by
        rw [List.getLast?_eq_head?_reverse, hrev]; rfl
      rw [List.dropWhile_cons, if_neg (by simp [hlast a this])]
  rw [hdwr, List.reverse_reverse]

/-- Claim C5, counterexample: `clean_text_for_model` is *not* idempotent.
On `"data:image/<a;b>;base64,AB"` the first pass only strips the tag
`<a;b>` (the `data:` URI pattern does not match because of the `;` inside
the tag), leaving `"data:image/ ;base64,AB"`; the second pass then matches
that remainder as a data URI and erases everything. -/
theorem c5_cex_not_idempotent :
    clean_text_for_model "data:image/<a;b>;base64,AB" = "data:image/ ;base64,AB" ∧
    clean_text_for_model (clean_text_for_model "data:image/<a;b>;base64,AB") = "" ∧
    clean_text_for_model (clean_text_for_model "data:image/<a;b>;base64,AB") ≠
      clean_text_for_model "data:image/<a;b>;base64,AB" := by
  exact ⟨by decide, by decide, by decide⟩

/-- Claim C5 (corrected): `clean_text_for_model` is idempotent on every
input free of the removable fragments — no `http://`, `https://`, `www.`
or `data:image/` substring, no case-insensitive `cid:` substring, and no
`<` character.  On such inputs one pass only collapses whitespace and
strips the ends, and a second pass changes nothing. -/
theorem c5_clean_model_conditional_idempotent (x : String)
    (h1 : ¬ ("http://".data <:+: x.data))
    (h2 : ¬ ("https://".data <:+: x.data))
    (h3 : ¬ ("www.".data <:+: x.data))
    (h4 : ¬ ("data:image/".data <:+: x.data))
    (h5 : ¬ ("cid:".data <:+: x.data.map pyLowerChar))
    (h6 : '<' ∉ x.data) :
    clean_text_for_model (clean_text_for_model x) = clean_text_for_model x := by
  by_cases hx : x = ""
  · rw [hx]; rfl
  · -- First pass: the five removal substitutions are the identity on `x`.
    have hurl : ∀ l : List Char,
        (¬ ("http://".data <:+: l)) → (¬ ("https://".data <:+: l)) →
        subPatF matchUrlLen 0 l = l := by
      intro l g1 g2
      refine subPatF_id _ l (fun s hs => ?_)
      cases hm : matchUrlLen s with
      | none => rfl
      | some n =>
        exfalso
        obtain ⟨scheme, hsch, hpre, -, -⟩ := matchUrlLen_spec s n hm
        rcases hsch with rfl | rfl
        · exact g2 (hpre.isInfix.trans hs.isInfix)
        · exact g1 (hpre.isInfix.trans hs.isInfix)
    have hwww : ∀ l : List Char, (¬ ("www.".data <:+: l)) →
        subPatF matchWwwLen 0 l = l := by
      intro l g
      refine subPatF_id _ l (fun s hs => ?_)
      cases hm : matchWwwLen s with
      | none => rfl
      | some n =>
        exact absurd ((matchWwwLen_pre s n hm).isInfix.trans hs.isInfix) g
    have hdata : ∀ l : List Char, (¬ ("data:image/".data <:+: l)) →
        subPatF matchDataUriLen 0 l = l := by
      intro l g
      refine subPatF_id _ l (fun s hs => ?_)
      cases hm : matchDataUriLen s with
      | none => rfl
      | some n =>
        exact absurd ((matchDataUriLen_pre s n hm).isInfix.trans hs.isInfix) g
    have hcid : ∀ l : List Char, (¬ ("cid:".data <:+: l.map pyLowerChar)) →
        subPatF matchCidLen 0 l = l := by
      intro l g
      refine subPatF_id _ l (fun s hs => ?_)
      cases hm : matchCidLen s with
      | none => rfl
      | some n =>
        exact absurd ((matchCidLen_pre s n hm).isInfix.trans
          (hs.map pyLowerChar).isInfix) g
    have htag : ∀ l : List Char, ('<' ∉ l) →
        subPatF matchTagStarLen 0 l = l := by
      intro l g
      refine subPatF_id _ l (fun s hs => ?_)
      cases hm : matchTagStarLen s with
      | none => rfl
      | some n =>
        exact absurd (hs.subset (matchTagStarLen_head s n hm)) g
    have hclean : clean_text_for_model x =
        String.mk (pyStrip (subPatF matchWsLen 0 x.data)) := by
      rw [clean_text_for_model, if_neg hx]
      dsimp only
      rw [hurl x.data h1 h2, hwww x.data h3, hdata x.data h4, hcid x.data h5,
        htag x.data h6]
    -- The intermediate result `y` and pull-backs of the no-fragment facts.
    set y := pyStrip (subPatF matchWsLen 0 x.data) with hy
    have hsub : SpaceSub x.data (subPatF matchWsLen 0 x.data) :=
      spaceSub_subPatF matchWsLen x.data.length x.data le_rfl
    have hyinf : y <:+: subPatF matchWsLen 0 x.data := pyStrip_within _
    have hpull : ∀ p : List Char, (∀ c ∈ p, c ≠ ' ') → p <:+: y → p <:+: x.data :=
      fun p hfree hp => spaceSub_within hsub p hfree (hp.trans hyinf)
    have hy1 : ¬ ("http://".data <:+: y) := fun hc => h1 (hpull _ (by decide) hc)
    have hy2 : ¬ ("https://".data <:+: y) := fun hc => h2 (hpull _ (by decide) hc)
    have hy3 : ¬ ("www.".data <:+: y) := fun hc => h3 (hpull _ (by decide) hc)
    have hy4 : ¬ ("data:image/".data <:+: y) := fun hc => h4 (hpull _ (by decide) hc)
    have hy5 : ¬ ("cid:".data <:+: y.map pyLowerChar) := by
      intro hc
      exact h5 (spaceSub_within (spaceSub_map_lower hsub) _ (by decide)
        (hc.trans (hyinf.map pyLowerChar)))
    have hy6 : '<' ∉ y := by
      intro hc
      exact h6 (spaceSub_mem hsub '<' (by decide) (hyinf.sublist.subset hc))
    -- `y` is already normalized: collapsing and stripping are identities.
    have hprops := collapse_out_props x.data.length x.data le_rfl
    have hP1y : ∀ c ∈ y, pyIsSpace c = true → c = ' ' :=
      fun c hc => hprops.1 c (hyinf.sublist.subset hc)
    have hP2y : y.Chain' (fun a b => ¬(pyIsSpace a = true ∧ pyIsSpace b = true)) :=
      List.Chain'.infix hprops.2.1 hyinf
    have hcolY : subPatF matchWsLen 0 y = y := collapse_id y.length y le_rfl hP1y hP2y
    have hstripY : pyStrip y = y :=
      strip_id y (pyStrip_head_not_ws _) (pyStrip_last_not_ws _)
    -- Assemble the second pass.
    rw [hclean]
    by_cases hy0 : String.mk y = ""
    · rw [hy0]; rfl
    · rw [clean_text_for_model, if_neg hy0]
      show String.mk (pyStrip (subPatF matchWsLen 0 (subPatF matchTagStarLen 0
        (subPatF matchCidLen 0 (subPatF matchDataUriLen 0 (subPatF matchWwwLen 0
          (subPatF matchUrlLen 0 y))))))) = String.mk y
      rw [hurl y hy1 hy2, hwww y hy3, hdata y hy4, hcid y hy5, htag y hy6,
        hcolY, hstripY]

/-- Claim C5, witness: idempotence at a concrete fragment-free input with
collapsible whitespace. -/
theorem c5_conditional_idempotent_witness :
    clean_text_for_model (clean_text_for_model "hello  world ") =
      clean_text_for_model "hello  world " :=
  c5_clean_model_conditional_idempotent "hello  world "
    (by decide) (by decide) (by decide) (by decide) (by decide) (by decide)

end SpamDetector
